import Mathlib

/-!
Verification of the dynamic-read serializer library: a shallow embedding of
`dynamic_read/utils.py` and `dynamic_read/serializers.py`, plus theorems about
the selector parser, the field resolver, the relation-graph walker and the
tier-2 hint filter.
-/

set_option autoImplicit false

namespace DynamicRead

/-- The lookup separator used for accessor paths.  In the source, the import of
`LOOKUP_SEP` from `django.db.models` falls back to `"__"`, and Django's own
constant is also `"__"`. -/
def LOOKUP_SEP : String := "__"

/-- Python `str.split("__")` on the character list of a string: split at every
non-overlapping occurrence of the separator, left to right; the empty string
yields `[[]]`. -/
def splitChars : List Char → List Char → List (List Char)
  | [], acc => [acc.reverse]
  | '_' :: '_' :: rest, acc => acc.reverse :: splitChars rest []
  | c :: rest, acc => splitChars rest (c :: acc)

/-- Python `each.split(LOOKUP_SEP)` for `LOOKUP_SEP = "__"`. -/
def splitLookup (s : String) : List String :=
  (splitChars s.data []).map String.mk

/-- Python `each.startswith(pre)`: `pre` is a character-level prefix of `s`. -/
def startswith (s pre : String) : Bool :=
  pre.data.isPrefixOf s.data

/-- The `fields` entry of a selection node: either the distinguished
`ALL_FIELDS` marker (the string `"__all__"` in the source) or a set of field
names. -/
inductive FieldsSpec where
  | all : FieldsSpec
  | explicit : Finset String → FieldsSpec
  deriving DecidableEq

/-- A selection node (`dr_meta` dict in the source): `fields`, `omit`, and the
`nested` defaultdict mapping field names to child nodes, in insertion order. -/
inductive DrMeta where
  | mk : FieldsSpec → Finset String → List (String × DrMeta) → DrMeta

def DrMeta.fields : DrMeta → FieldsSpec
  | .mk f _ _ => f

def DrMeta.omit : DrMeta → Finset String
  | .mk _ o _ => o

def DrMeta.nested : DrMeta → List (String × DrMeta)
  | .mk _ _ n => n

/-- `dynamic_read_meta()`: a fresh node with empty `fields`, empty `omit` and
an empty `nested` mapping. -/
def dynamic_read_meta : DrMeta :=
  DrMeta.mk (FieldsSpec.explicit ∅) ∅ []

/-- Lookup in the `nested` association list (first matching key). -/
def lookupNested : List (String × DrMeta) → String → Option DrMeta
  | [], _ => none
  | (k, v) :: rest, f => if k = f then some v else lookupNested rest f

/-- The defaultdict access `parent_meta["nested"][parent_field]` followed by a
mutation of the child: apply `g` to the existing child, or to a fresh
`dynamic_read_meta` appended at the end (dict insertion order). -/
def updateNested : List (String × DrMeta) → String → (DrMeta → DrMeta) → List (String × DrMeta)
  | [], f, g => [(f, g dynamic_read_meta)]
  | (k, v) :: rest, f, g => if k = f then (k, g v) :: rest else (k, v) :: updateNested rest f g

/-- `field_meta["fields"].add(field)`.  During filter processing the `fields`
entry is always a set (the omit loop, which overwrites it with `ALL_FIELDS`,
runs afterwards), so the `all` branch is unreachable there. -/
def addFieldName : FieldsSpec → String → FieldsSpec
  | FieldsSpec.all, _ => FieldsSpec.all
  | FieldsSpec.explicit s, f => FieldsSpec.explicit (insert f s)

/-- One iteration of the filter-path loop of `process_field_options`: add each
segment to the node where it lives and descend into `nested[segment]` for the
remaining segments. -/
def addFilterPath : List String → DrMeta → DrMeta
  | [], m => m
  | [f], m => DrMeta.mk (addFieldName m.fields f) m.omit m.nested
  | f :: rest, m =>
      DrMeta.mk (addFieldName m.fields f) m.omit (updateNested m.nested f (addFilterPath rest))

/-- One iteration of the omit-path loop of `process_field_options`: mark
`fields` as `ALL_FIELDS` at every traversed level, and add the final segment to
the terminal node's `omit` set. -/
def addOmitPath : List String → DrMeta → DrMeta
  | [], m => m
  | [f], m => DrMeta.mk FieldsSpec.all (insert f m.omit) m.nested
  | f :: rest, m =>
      DrMeta.mk FieldsSpec.all m.omit (updateNested m.nested f (addOmitPath rest))

/-- `process_field_options(filter_fields, omit_fields)`: split every path on
`LOOKUP_SEP` and fold the filter paths, then the omit paths, into a fresh
tree. -/
def process_field_options (filter_fields omit_fields : List String) : DrMeta :=
  ((omit_fields.map splitLookup).foldl (fun acc segs => addOmitPath segs acc)
    ((filter_fields.map splitLookup).foldl (fun acc segs => addFilterPath segs acc)
      dynamic_read_meta))

/-- `DynamicReadSerializerMixin.derive_desired_fields`, restricted to the set
it returns: if `omit` is non-empty (Python truthiness), the candidate names
minus `omit`; otherwise all candidates when `fields` is the `ALL_FIELDS`
marker, else `fields ∩` candidates. -/
def derive_desired_fields (m : DrMeta) (field_names : Finset String) : Finset String :=
  if m.omit ≠ ∅ then field_names \ m.omit
  else
    match m.fields with
    | FieldsSpec.all => field_names
    | FieldsSpec.explicit s => s ∩ field_names

/-- Walk a chain of `nested` entries from a node. -/
def metaAt : DrMeta → List String → Option DrMeta
  | m, [] => some m
  | m, f :: rest =>
      match lookupNested m.nested f with
      | none => none
      | some c => metaAt c rest

/-- The serializer state set up by `DynamicReadSerializerMixin.__init__` when
the assertion passes. -/
structure MixinState where
  filter_fields : List String
  omit_fields : List String
  dr_meta : Option DrMeta

/-- `DynamicReadSerializerMixin.__init__`: assert that not both argument lists
are truthy (non-empty), then build `dr_meta` from `process_field_options` when
at least one list is non-empty.  An absent (`None`) argument behaves as the
empty list. -/
def mixin_init (filter_fields omit_fields : List String) : Except String MixinState :=
  if filter_fields ≠ [] ∧ omit_fields ≠ [] then
    Except.error "Pass either filter_fields or omit_fields, not both"
  else
    Except.ok
      { filter_fields := filter_fields
        omit_fields := omit_fields
        dr_meta :=
          if filter_fields ≠ [] ∨ omit_fields ≠ [] then
            some (process_field_options filter_fields omit_fields)
          else none }

/-- A serializer-graph field value, as discriminated by the runtime type checks
in the source: `plain` is any field that is not a dynamic-read serializer
(`ChildNotSupported`), `ser` is a `DynamicReadSerializerMixin` instance
carrying its `dr_meta`, the relational field names of its model (dict order),
and its `get_fields()` mapping (dict order), and `listSer` is a
`ListSerializer` wrapping a child field. -/
inductive SField where
  | plain : SField
  | ser : Option DrMeta → List String → List (String × SField) → SField
  | listSer : SField → SField

/-- `extract_serializer_from_child`: a mixin instance is returned as is; a
`ListSerializer` whose child is a mixin instance yields that child; everything
else raises `ChildNotSupported` (modelled as `none`). -/
def extract_serializer_from_child : SField → Option SField
  | SField.ser dm rel fmap => some (SField.ser dm rel fmap)
  | SField.listSer (SField.ser dm rel fmap) => some (SField.ser dm rel fmap)
  | _ => none

/-- `is_child_multiple`: `isinstance(child, ListSerializer)`. -/
def is_child_multiple : SField → Bool
  | SField.listSer _ => true
  | _ => false

/-- Lookup in a `fields_map` association list (first matching key). -/
def lookupField : List (String × SField) → String → Option SField
  | [], _ => none
  | (k, v) :: rest, f => if k = f then some v else lookupField rest f

/-- Replace the value stored at the first entry with the given key. -/
def replaceField : List (String × SField) → String → SField → List (String × SField)
  | [], _, _ => []
  | (k, v) :: rest, f, nv => if k = f then (k, nv) :: rest else (k, v) :: replaceField rest f nv

/-- `set(fields_map.keys())`. -/
def keysFinset (fmap : List (String × SField)) : Finset String :=
  fmap.foldr (fun kv acc => insert kv.1 acc) ∅

/-- The mutation `nested_field.dr_meta = field_meta` performed on the
serializer extracted from a child: it fires only when the extracted mixin's
`dr_meta` is still `None`, and for a `ListSerializer` it lands on the wrapped
child. -/
def attach_dr_meta (fm : DrMeta) : SField → SField
  | SField.ser none rel fmap => SField.ser (some fm) rel fmap
  | SField.listSer (SField.ser none rel fmap) => SField.listSer (SField.ser (some fm) rel fmap)
  | s => s

/-- One iteration of the attachment loop in `derive_desired_fields`: look the
field up in `fields_map` (`KeyError` suppressed), extract the serializer from
it (`ChildNotSupported` suppressed), and attach the nested meta. -/
def attachToField (fmap : List (String × SField)) (f : String) (fm : DrMeta) :
    List (String × SField) :=
  match lookupField fmap f with
  | none => fmap
  | some fobj =>
      match extract_serializer_from_child fobj with
      | none => fmap
      | some _ => replaceField fmap f (attach_dr_meta fm fobj)

/-- The attachment loop of `derive_desired_fields`, over all `nested` items in
insertion order. -/
def attachNested (nested : List (String × DrMeta)) (fmap : List (String × SField)) :
    List (String × SField) :=
  nested.foldl (fun acc kv => attachToField acc kv.1 kv.2) fmap

/-- The `fields` cached property: with no `dr_meta` every candidate field is
exposed and nothing is attached; with a `dr_meta`, `derive_desired_fields`
narrows the candidate set and attaches the nested metas to the children. -/
def resolveFields (dm : Option DrMeta) (fmap : List (String × SField)) :
    Finset String × List (String × SField) :=
  match dm with
  | none => (keysFinset fmap, fmap)
  | some m => (derive_desired_fields m (keysFinset fmap), attachNested m.nested fmap)

/-- The body of the loop in `evaluate_select_prefetch` for one relational
field name `f`, with `recur` standing for the recursive call on the extracted
child serializer.  Fields not in the exposed set are skipped; a child that
raises `ChildNotSupported` makes the whole body a no-op (the `suppress` block
encloses every append). -/
def fieldStep (recur : SField → String → List String × List String)
    (acc_pfx : String) (desired : Finset String) (fmap : List (String × SField))
    (f : String) : List String × List String :=
  if f ∈ desired then
    match lookupField fmap f with
    | none => ([], [])
    | some fobj =>
        match extract_serializer_from_child fobj with
        | none => ([], [])
        | some child =>
            let many := is_child_multiple fobj
            let sub := recur child (acc_pfx ++ f ++ LOOKUP_SEP)
            let own := acc_pfx ++ f
            ((if sub.1 ≠ [] then (if many then [] else sub.1)
              else (if many then [] else [own])),
             (if sub.1 ≠ [] ∧ many then sub.1 else []) ++
               (if sub.2 ≠ [] then sub.2 else (if many then [own] else [])))
  else ([], [])

/-- The loop of `evaluate_select_prefetch` over the relational field names,
concatenating the per-field contributions in order. -/
def evalFields (recur : SField → String → List String × List String)
    (acc_pfx : String) (desired : Finset String) (fmap : List (String × SField)) :
    List String → List String × List String
  | [] => ([], [])
  | f :: rest =>
      let a := fieldStep recur acc_pfx desired fmap f
      let b := evalFields recur acc_pfx desired fmap rest
      (a.1 ++ b.1, a.2 ++ b.2)

/-- `evaluate_select_prefetch(accessor_prefix)`: resolve the exposed fields
(attaching nested metas), then walk the relational fields.  The `fuel`
argument bounds the recursion depth of the embedding; it exceeds the nesting
depth of every graph used below, and the source's recursion is bounded by the
serializer graph's depth in the same way. -/
def evaluate_select_prefetch : Nat → SField → String → List String × List String
  | 0, _, _ => ([], [])
  | Nat.succ fuel, SField.ser dm rel fmap, acc_pfx =>
      let r := resolveFields dm fmap
      evalFields (evaluate_select_prefetch fuel) acc_pfx r.1 r.2 rel
  | Nat.succ _, _, _ => ([], [])

/-- `get_prefetch_select(serializer_class, filter_fields, omit_fields)` with
the class's cached Tier-1 pair supplied directly: no filters returns Tier 1
unchanged; a filter list keeps, per requested field, the Tier-1 entries in a
character-prefix relation with it; an omit list drops the Tier-1 entries in a
character-prefix relation with any omitted field. -/
def get_prefetch_select (tier1 : List String × List String)
    (filter_fields omit_fields : List String) : List String × List String :=
  if filter_fields = [] ∧ omit_fields = [] then tier1
  else if filter_fields ≠ [] then
    (filter_fields.flatMap (fun field =>
        tier1.1.filter (fun each => startswith each field || startswith field each)),
     filter_fields.flatMap (fun field =>
        tier1.2.filter (fun each => startswith each field || startswith field each)))
  else
    (tier1.1.filter (fun each =>
        !(omit_fields.any (fun field => startswith each field || startswith field each))),
     tier1.2.filter (fun each =>
        !(omit_fields.any (fun field => startswith each field || startswith field each))))

/-- The spec's Book scenario: `author` is a to-one selection-capable relation
exposing no further relations, `reviews` is a to-many selection-capable
relation exposing the to-one selection-capable relation `reviewer`. -/
def authorNode : SField :=
  SField.ser none [] [("name", SField.plain)]

def reviewerNode : SField :=
  SField.ser none [] [("rname", SField.plain)]

def reviewNode : SField :=
  SField.ser none ["reviewer"] [("reviewer", reviewerNode), ("text", SField.plain)]

def bookFieldsMap : List (String × SField) :=
  [("title", SField.plain), ("author", authorNode), ("reviews", SField.listSer reviewNode)]

def bookNode : SField :=
  SField.ser none ["author", "reviews"] bookFieldsMap

/-- A node whose only relational field is rendered by a non-serializer field
(for example a primary-key related field): its child is not
selection-capable. -/
def opaqueRelNode : SField :=
  SField.ser none ["author"] [("author", SField.plain), ("title", SField.plain)]

/-- A node whose only relational field is a to-many relation rendered by a
`ListSerializer` over a non-serializer child. -/
def opaqueManyRelNode : SField :=
  SField.ser none ["reviews"] [("reviews", SField.listSer SField.plain)]

/-- A graph with a to-many relation beneath a to-many relation: `blog` has
many `posts`, each post has many `tags`. -/
def tagNode : SField :=
  SField.ser none [] [("label", SField.plain)]

def postNode : SField :=
  SField.ser none ["tags"] [("tags", SField.listSer tagNode)]

def blogNode : SField :=
  SField.ser none ["posts"] [("posts", SField.listSer postNode)]


/-! ## Helper lemmas -/

theorem lookupNested_updateNested (ns : List (String × DrMeta)) (f : String)
    (g : DrMeta → DrMeta) :
    lookupNested (updateNested ns f g) f
      = some (g ((lookupNested ns f).getD dynamic_read_meta)) := by
  induction ns with
  | nil => simp [updateNested, lookupNested]
  | cons kv rest ih =>
      obtain ⟨k, v⟩ := kv
      by_cases h : k = f <;> simp [updateNested, lookupNested, h, ih]

/-- Structural description of a single omit path: every traversed level is
marked `ALL_FIELDS`, and the final segment lands in the terminal node's `omit`
set. -/
theorem addOmitPath_spec (segs : List String) :
    ∀ m : DrMeta, segs ≠ [] →
      (∀ i, i < segs.length →
        (metaAt (addOmitPath segs m) (segs.take i)).map DrMeta.fields
          = some FieldsSpec.all) ∧
      ∃ m' lastSeg,
        metaAt (addOmitPath segs m) (segs.take (segs.length - 1)) = some m' ∧
        segs.getLast? = some lastSeg ∧ lastSeg ∈ m'.omit := by
  induction segs with
  | nil => intro m h; exact absurd rfl h
  | cons f rest ih =>
      intro m _
      cases rest with
      | nil =>
          refine ⟨?_, ?_⟩
          · intro i hi
            have hz : i = 0 := Nat.lt_one_iff.mp hi
            subst hz
            simp [addOmitPath, metaAt, DrMeta.fields]
          · exact ⟨DrMeta.mk FieldsSpec.all (insert f m.omit) m.nested, f,
              by simp [addOmitPath, metaAt], rfl, by simp [DrMeta.omit]⟩
      | cons g rest2 =>
          have hsub := ih ((lookupNested m.nested f).getD dynamic_read_meta) (by simp)
          refine ⟨?_, ?_⟩
          · intro i hi
            cases i with
            | zero => simp [addOmitPath, metaAt, DrMeta.fields]
            | succ j =>
                have hj : j < (g :: rest2).length := by
                  simpa [List.length_cons, Nat.succ_lt_succ_iff] using hi
                have hstep := hsub.1 j hj
                simp only [addOmitPath, List.take_succ_cons, metaAt, DrMeta.nested,
                  lookupNested_updateNested]
                exact hstep
          · obtain ⟨m', lastSeg, h1, h2, h3⟩ := hsub.2
            refine ⟨m', lastSeg, ?_, ?_, h3⟩
            · have hlen : (f :: g :: rest2).length - 1 = (g :: rest2).length := by
                simp
              rw [hlen]
              have htake : (f :: g :: rest2).take ((g :: rest2).length)
                  = f :: (g :: rest2).take ((g :: rest2).length - 1) := by
                simp [List.take_succ_cons]
              rw [htake]
              simp only [addOmitPath, metaAt, DrMeta.nested, lookupNested_updateNested]
              exact h1
            · rw [List.getLast?_cons_cons]
              exact h2

/-! ## C3: the field-resolution contract -/

/-- C3: field resolution on a node whose selection state satisfies the
attachable-node invariant (`omit` only meaningful when `fields` is the
`ALL_FIELDS` marker, which holds of every parser-produced node): omit mode
subtracts `omit` and omitting an unknown name is a no-op; an explicit include
set intersects; `ALL_FIELDS` with empty `omit` exposes everything. -/
theorem derive_desired_fields_contract (fl : FieldsSpec) (om : Finset String)
    (ns : List (String × DrMeta)) (F : Finset String)
    (hinv : om ≠ ∅ → fl = FieldsSpec.all) :
    (om ≠ ∅ → derive_desired_fields (DrMeta.mk fl om ns) F = F \ om) ∧
    (∀ x, x ∉ F →
      derive_desired_fields (DrMeta.mk FieldsSpec.all (insert x om) ns) F
        = derive_desired_fields (DrMeta.mk FieldsSpec.all om ns) F) ∧
    (∀ s, fl = FieldsSpec.explicit s →
      derive_desired_fields (DrMeta.mk fl om ns) F = F ∩ s) ∧
    (fl = FieldsSpec.all → om = ∅ → derive_desired_fields (DrMeta.mk fl om ns) F = F) := by
  refine ⟨?_, ?_, ?_, ?_⟩
  · intro h
    simp [derive_desired_fields, DrMeta.omit, DrMeta.fields, h]
  · intro x hx
    by_cases h : om = ∅
    · subst h
      have hne : (insert x (∅ : Finset String)) ≠ ∅ := by simp
      simp only [derive_desired_fields, DrMeta.omit, DrMeta.fields, hne, if_true,
        ne_eq, not_true_eq_false, if_false, not_false_eq_true, if_pos]
      simp [Finset.sdiff_eq_self_iff_disjoint, Finset.disjoint_left, hx]
    · have hne : (insert x om) ≠ ∅ := by simp
      simp only [derive_desired_fields, DrMeta.omit, DrMeta.fields, hne, h, if_true,
        ne_eq, not_false_eq_true, if_pos]
      ext a
      simp only [Finset.mem_sdiff, Finset.mem_insert]
      constructor
      · rintro ⟨ha, hno⟩
        exact ⟨ha, fun hm => hno (Or.inr hm)⟩
      · rintro ⟨ha, hno⟩
        refine ⟨ha, fun hor => ?_⟩
        cases hor with
        | inl hax => exact hx (hax ▸ ha)
        | inr hm => exact hno hm
  · intro s hs
    have h0 : om = ∅ := by
      by_contra h
      have := hinv h
      rw [this] at hs
      exact FieldsSpec.noConfusion hs
    subst hs
    simp [derive_desired_fields, DrMeta.omit, DrMeta.fields, h0, Finset.inter_comm]
  · intro h1 h2
    simp [derive_desired_fields, DrMeta.omit, DrMeta.fields, h1, h2]

/-- Witness for C3, at a parser-shaped node in omit mode. -/
theorem derive_desired_fields_contract_witness :
    derive_desired_fields (DrMeta.mk FieldsSpec.all {"a"} []) {"a", "b"}
      = ({"a", "b"} : Finset String) \ {"a"} :=
  (derive_desired_fields_contract FieldsSpec.all {"a"} [] {"a", "b"} (fun _ => rfl)).1
    (by decide)

/-! ## C9: omit precedence -/

/-- C9: a non-empty `omit` set takes absolute precedence in field resolution:
the result is the candidate set minus `omit` whatever the `fields` entry is,
so the `fields` entry is only consulted when `omit` is empty. -/
theorem derive_omit_precedence (fl : FieldsSpec) (om : Finset String)
    (ns : List (String × DrMeta)) (F : Finset String) (h : om ≠ ∅) :
    derive_desired_fields (DrMeta.mk fl om ns) F = F \ om ∧
    ∀ fl', derive_desired_fields (DrMeta.mk fl om ns) F
        = derive_desired_fields (DrMeta.mk fl' om ns) F := by
  constructor
  · simp [derive_desired_fields, DrMeta.omit, h]
  · intro fl'
    simp [derive_desired_fields, DrMeta.omit, h]

/-- Witness for C9: a restrictive (non-`ALL_FIELDS`) `fields` entry is ignored
when `omit` is non-empty. -/
theorem derive_omit_precedence_witness :
    derive_desired_fields (DrMeta.mk (FieldsSpec.explicit {"x"}) {"a"} []) {"a", "b"}
      = ({"a", "b"} : Finset String) \ {"a"} :=
  (derive_omit_precedence (FieldsSpec.explicit {"x"}) {"a"} [] {"a", "b"} (by decide)).1

/-! ## C4: mutual exclusion of filter and omit -/

/-- C4: constructing a dynamic-read serializer fails with the configuration
assertion exactly when both `filter_fields` and `omit_fields` are non-empty;
no other argument combination makes construction fail. -/
theorem mixin_init_mutual_exclusion (ff of : List String) :
    (∃ e, mixin_init ff of = Except.error e) ↔ (ff ≠ [] ∧ of ≠ []) := by
  by_cases h : ff ≠ [] ∧ of ≠ []
  · simp [mixin_init, h]
  · simp [mixin_init, h]

/-! ## C6: the omit path walk -/

/-- C6 counterexample: for the omit path `"a__b"` the claim predicts that the
terminal node (the one holding `omit = {"b"}`) keeps its untouched fresh
`fields` set; in the code the omit loop marks the `fields` entry of every
traversed level, the terminal one included, as `ALL_FIELDS`. -/
theorem omit_terminal_marked_all_cex :
    ¬ ((metaAt (process_field_options [] ["a__b"]) ["a"]).map DrMeta.fields
          = some (FieldsSpec.explicit ∅) ∧
        (metaAt (process_field_options [] ["a__b"]) ["a"]).map DrMeta.omit
          = some ({"b"} : Finset String) ∧
        (process_field_options [] ["a__b"]).fields = FieldsSpec.all) := by
  decide

/-- C6 amended: processing an omit path walks/creates the chain of nested
nodes one per segment, marks the `fields` entry of every traversed level — the
terminal level included — as `ALL_FIELDS`, and adds the final segment to the
terminal node's `omit` set rather than to its `fields` set. -/
theorem omit_path_marks_all_levels (p : String) (i : Nat)
    (hi : i < (splitLookup p).length) :
    ((metaAt (process_field_options [] [p]) ((splitLookup p).take i)).map DrMeta.fields
        = some FieldsSpec.all) ∧
    ∃ m lastSeg,
      metaAt (process_field_options [] [p])
          ((splitLookup p).take ((splitLookup p).length - 1)) = some m ∧
      (splitLookup p).getLast? = some lastSeg ∧ lastSeg ∈ m.omit := by
  have hne : splitLookup p ≠ [] := by
    intro h
    rw [h] at hi
    exact absurd hi (by simp)
  have hspec := addOmitPath_spec (splitLookup p) dynamic_read_meta hne
  have hpo : process_field_options [] [p] = addOmitPath (splitLookup p) dynamic_read_meta := rfl
  rw [hpo]
  exact ⟨hspec.1 i hi, hspec.2⟩

/-- Witness for the amended C6, at the omit path `"a__b"` and its terminal
level. -/
theorem omit_path_marks_all_levels_witness :
    ((metaAt (process_field_options [] ["a__b"]) ((splitLookup "a__b").take 1)).map
          DrMeta.fields = some FieldsSpec.all) ∧
    ∃ m lastSeg,
      metaAt (process_field_options [] ["a__b"])
          ((splitLookup "a__b").take ((splitLookup "a__b").length - 1)) = some m ∧
      (splitLookup "a__b").getLast? = some lastSeg ∧ lastSeg ∈ m.omit :=
  omit_path_marks_all_levels "a__b" 1 (by decide)

/-! ## C1: the Book scenario -/

/-- C1: on the spec's Book scenario the unrestricted walk returns, up to order
and duplicates, `direct_join = {"author"}` and
`batched_load = {"reviews", "reviews__reviewer"}`: the direct-join entry
produced beneath the multi-valued `reviews` field is demoted into the batched
set. -/
theorem book_scenario_hints :
    (evaluate_select_prefetch 3 bookNode "").1.toFinset = {"author"} ∧
    (evaluate_select_prefetch 3 bookNode "").2.toFinset
      = {"reviews", "reviews__reviewer"} := by
  decide

/-! ## C2: fields with non-selection-capable children -/

/-- C2 counterexample: a single-valued relational field rendered by a
non-serializer field (here `author`, exposed, relational, with a plain field
object) produces no hint at all — its accessor path lands in neither
`direct_join` nor `batched_load`; the same holds for the list-valued case. -/
theorem nonserializer_child_no_hint_cex :
    "author" ∉ (evaluate_select_prefetch 2 opaqueRelNode "").1 ∧
    "author" ∉ (evaluate_select_prefetch 2 opaqueRelNode "").2 ∧
    "reviews" ∉ (evaluate_select_prefetch 2 opaqueManyRelNode "").1 ∧
    "reviews" ∉ (evaluate_select_prefetch 2 opaqueManyRelNode "").2 ∧
    evaluate_select_prefetch 2 opaqueRelNode "" = ([], []) ∧
    evaluate_select_prefetch 2 opaqueManyRelNode "" = ([], []) := by
  decide

/-- C2 amended: a relational field whose child is not selection-capable is
skipped entirely by the walk — the `suppress(ChildNotSupported)` block
encloses every hint-producing statement, so the field contributes nothing to
either hint set and the walk over the remaining fields is unchanged. -/
theorem nonserializer_child_skipped
    (recur : SField → String → List String × List String)
    (acc_pfx : String) (desired : Finset String) (fmap : List (String × SField))
    (f : String) (fobj : SField)
    (hl : lookupField fmap f = some fobj)
    (he : extract_serializer_from_child fobj = none) :
    fieldStep recur acc_pfx desired fmap f = ([], []) ∧
    ∀ rest, evalFields recur acc_pfx desired fmap (f :: rest)
        = evalFields recur acc_pfx desired fmap rest := by
  have h1 : fieldStep recur acc_pfx desired fmap f = ([], []) := by
    unfold fieldStep
    by_cases hd : f ∈ desired
    · simp [hd, hl, he]
    · simp [hd]
  exact ⟨h1, fun rest => by simp [evalFields, h1]⟩

/-- Witness for the amended C2, at the exposed relational field `author` of
the concrete node whose field object is plain. -/
theorem nonserializer_child_skipped_witness :
    fieldStep (evaluate_select_prefetch 1) ""
        (keysFinset [("author", SField.plain), ("title", SField.plain)])
        [("author", SField.plain), ("title", SField.plain)] "author" = ([], []) :=
  (nonserializer_child_skipped (evaluate_select_prefetch 1) ""
    (keysFinset [("author", SField.plain), ("title", SField.plain)])
    [("author", SField.plain), ("title", SField.plain)] "author" SField.plain rfl rfl).1

/-! ## C7: when a multi-valued field's own path is batched -/

/-- C7 counterexample: in the Book scenario the recursive call beneath
`reviews` yields the direct-join entry `reviews__reviewer`, yet the code still
adds `reviews` itself to `batched_load` (the trigger is the absence of
batched-load entries from the recursion, not of direct-join entries); dually,
beneath `posts` the recursion yields no direct-join entries but a batched
entry, and `posts` itself is not added. -/
theorem many_own_path_cex :
    ((evaluate_select_prefetch 2 reviewNode "reviews__").1 = ["reviews__reviewer"] ∧
      (evaluate_select_prefetch 2 reviewNode "reviews__").2 = [] ∧
      "reviews" ∈ (evaluate_select_prefetch 3 bookNode "").2) ∧
    ((evaluate_select_prefetch 2 postNode "posts__").1 = [] ∧
      (evaluate_select_prefetch 2 postNode "posts__").2 = ["posts__tags"] ∧
      "posts" ∉ (evaluate_select_prefetch 3 blogNode "").2) := by
  decide

/-- C7 amended: for an exposed, multi-valued, selection-capable relational
field, the field's own accessor path is added to `batched_load` exactly when
the recursive call into its child yielded no `batched_load` entries — the
direct-join entries of the recursion are irrelevant to this condition. -/
theorem fieldStep_own_batched_iff
    (recur : SField → String → List String × List String)
    (acc_pfx : String) (desired : Finset String) (fmap : List (String × SField))
    (f : String) (fobj child : SField) (ss sp : List String)
    (hd : f ∈ desired)
    (hl : lookupField fmap f = some fobj)
    (hm : is_child_multiple fobj = true)
    (he : extract_serializer_from_child fobj = some child)
    (hs : recur child (acc_pfx ++ f ++ LOOKUP_SEP) = (ss, sp))
    (h1 : (acc_pfx ++ f) ∉ ss) (h2 : (acc_pfx ++ f) ∉ sp) :
    ((acc_pfx ++ f) ∈ (fieldStep recur acc_pfx desired fmap f).2 ↔ sp = []) := by
  unfold fieldStep
  simp only [hd, if_true, hl, he, hs, hm]
  by_cases hsp : sp = []
  · subst hsp
    by_cases hss : ss = [] <;> simp [hss]
  · by_cases hss : ss = [] <;> simp [hss, hsp, h1, h2]

/-- Witness for the amended C7, at the `reviews` field of the Book node, whose
recursion yields a direct-join entry and no batched entry. -/
theorem fieldStep_own_batched_iff_witness :
    (("" ++ "reviews")
        ∈ (fieldStep (evaluate_select_prefetch 2) "" (keysFinset bookFieldsMap)
            bookFieldsMap "reviews").2) ↔ (([] : List String) = []) :=
  fieldStep_own_batched_iff (evaluate_select_prefetch 2) "" (keysFinset bookFieldsMap)
    bookFieldsMap "reviews" (SField.listSer reviewNode) reviewNode
    ["reviews__reviewer"] [] (by decide) rfl rfl rfl (by decide) (by decide) (by decide)

/-! ## C8: unattachable nested entries are inert -/

theorem lookupField_replaceField_ne (fmap : List (String × SField)) (g : String)
    (v : SField) (f : String) (h : g ≠ f) :
    lookupField (replaceField fmap g v) f = lookupField fmap f := by
  induction fmap with
  | nil => rfl
  | cons kv rest ih =>
      obtain ⟨k, w⟩ := kv
      by_cases hk : k = g
      · subst hk
        simp [replaceField, lookupField, h]
      · by_cases hf : k = f
        · subst hf
          simp [replaceField, lookupField, hk]
        · simp [replaceField, lookupField, hk, hf, ih]

theorem lookupField_attachToField (acc : List (String × SField)) (g : String)
    (gm : DrMeta) (f : String)
    (h : ∀ fobj, lookupField acc f = some fobj →
      extract_serializer_from_child fobj = none) :
    lookupField (attachToField acc g gm) f = lookupField acc f := by
  unfold attachToField
  split
  · rfl
  next gobj hg =>
    split
    · rfl
    next s he =>
      by_cases hgf : g = f
      · subst hgf
        rw [h gobj hg] at he
        exact Option.noConfusion he
      · exact lookupField_replaceField_ne acc g (attach_dr_meta gm gobj) f hgf

theorem lookupField_attachNested (l : List (String × DrMeta))
    (acc : List (String × SField)) (f : String)
    (h : ∀ fobj, lookupField acc f = some fobj →
      extract_serializer_from_child fobj = none) :
    lookupField (attachNested l acc) f = lookupField acc f := by
  induction l generalizing acc with
  | nil => rfl
  | cons kv rest ih =>
      have step := lookupField_attachToField acc kv.1 kv.2 f h
      have h' : ∀ fobj, lookupField (attachToField acc kv.1 kv.2) f = some fobj →
          extract_serializer_from_child fobj = none := by
        rw [step]; exact h
      calc lookupField (attachNested (kv :: rest) acc) f
          = lookupField (attachNested rest (attachToField acc kv.1 kv.2)) f := rfl
        _ = lookupField (attachToField acc kv.1 kv.2) f := ih _ h'
        _ = lookupField acc f := step

/-- C8: a `nested` entry whose field name is missing from the candidate field
map, or whose field value is not a selection-capable node, is inert: field
resolution raises no error, and both the exposed-field set and the attachment
pass are the same as if the entry were absent. -/
theorem resolve_ignores_unattachable_nested (fl : FieldsSpec) (om : Finset String)
    (l₁ l₂ : List (String × DrMeta)) (f : String) (fm : DrMeta)
    (fmap : List (String × SField))
    (h : ∀ fobj, lookupField fmap f = some fobj →
      extract_serializer_from_child fobj = none) :
    resolveFields (some (DrMeta.mk fl om (l₁ ++ (f, fm) :: l₂))) fmap
      = resolveFields (some (DrMeta.mk fl om (l₁ ++ l₂))) fmap := by
  have h1 : ∀ fobj, lookupField (attachNested l₁ fmap) f = some fobj →
      extract_serializer_from_child fobj = none := by
    rw [lookupField_attachNested l₁ fmap f h]; exact h
  have hmid : attachToField (attachNested l₁ fmap) f fm = attachNested l₁ fmap := by
    unfold attachToField
    cases hg : lookupField (attachNested l₁ fmap) f with
    | none => rfl
    | some fobj => simp [h1 fobj hg]
  have hatt : attachNested (l₁ ++ (f, fm) :: l₂) fmap = attachNested (l₁ ++ l₂) fmap := by
    show List.foldl (fun acc kv => attachToField acc kv.1 kv.2) fmap (l₁ ++ (f, fm) :: l₂)
        = List.foldl (fun acc kv => attachToField acc kv.1 kv.2) fmap (l₁ ++ l₂)
    rw [List.foldl_append, List.foldl_append, List.foldl_cons]
    show List.foldl _ (attachToField (attachNested l₁ fmap) f fm) l₂
        = List.foldl _ (attachNested l₁ fmap) l₂
    rw [hmid]
  show (derive_desired_fields (DrMeta.mk fl om (l₁ ++ (f, fm) :: l₂)) (keysFinset fmap),
      attachNested (DrMeta.mk fl om (l₁ ++ (f, fm) :: l₂)).nested fmap)
    = (derive_desired_fields (DrMeta.mk fl om (l₁ ++ l₂)) (keysFinset fmap),
      attachNested (DrMeta.mk fl om (l₁ ++ l₂)).nested fmap)
  rw [show (DrMeta.mk fl om (l₁ ++ (f, fm) :: l₂)).nested = l₁ ++ (f, fm) :: l₂ from rfl,
    show (DrMeta.mk fl om (l₁ ++ l₂)).nested = l₁ ++ l₂ from rfl, hatt]
  rfl

/-- Witness for C8: a nested entry attached to the non-serializer field `a`
leaves resolution unchanged. -/
theorem resolve_ignores_unattachable_nested_witness :
    resolveFields (some (DrMeta.mk FieldsSpec.all ∅ [("a", dynamic_read_meta)]))
        [("a", SField.plain)]
      = resolveFields (some (DrMeta.mk FieldsSpec.all ∅ [])) [("a", SField.plain)] :=
  resolve_ignores_unattachable_nested FieldsSpec.all ∅ [] [] "a" dynamic_read_meta
    [("a", SField.plain)]
    (fun fobj hq => by
      have hv : SField.plain = fobj := by
        simpa [lookupField] using hq
      cases hv
      rfl)

/-! ## C5: tier-2 filtering of the hint sets -/

/-- C5: tier-2 derivation returns the Tier-1 pair unchanged when neither list
is supplied; with a filter list it keeps exactly the Tier-1 entries standing
in a prefix relation (either direction) with some requested field; with an
omit list it keeps exactly the Tier-1 entries standing in no prefix relation
with any omitted field; and on the Book Tier-1 sets with
`filter_fields = ["author"]` it yields `(["author"], [])`. -/
theorem get_prefetch_select_spec (all_s all_p ff of : List String) :
    (ff = [] → of = [] → get_prefetch_select (all_s, all_p) ff of = (all_s, all_p)) ∧
    (ff ≠ [] → ∀ e,
      (e ∈ (get_prefetch_select (all_s, all_p) ff of).1 ↔
        e ∈ all_s ∧ ∃ field ∈ ff,
          startswith e field = true ∨ startswith field e = true) ∧
      (e ∈ (get_prefetch_select (all_s, all_p) ff of).2 ↔
        e ∈ all_p ∧ ∃ field ∈ ff,
          startswith e field = true ∨ startswith field e = true)) ∧
    (ff = [] → of ≠ [] → ∀ e,
      (e ∈ (get_prefetch_select (all_s, all_p) ff of).1 ↔
        e ∈ all_s ∧ ¬ ∃ field ∈ of,
          startswith e field = true ∨ startswith field e = true) ∧
      (e ∈ (get_prefetch_select (all_s, all_p) ff of).2 ↔
        e ∈ all_p ∧ ¬ ∃ field ∈ of,
          startswith e field = true ∨ startswith field e = true)) ∧
    get_prefetch_select (["author"], ["reviews", "reviews__reviewer"]) ["author"] []
      = (["author"], []) := by
  refine ⟨?_, ?_, ?_, by decide⟩
  · intro h1 h2
    simp [get_prefetch_select, h1, h2]
  · intro hff e
    have hcond : ¬ (ff = [] ∧ of = []) := fun hc => hff hc.1
    constructor
    · simp only [get_prefetch_select, if_neg hcond, if_pos hff, List.mem_flatMap,
        List.mem_filter, Bool.or_eq_true]
      constructor
      · rintro ⟨a, ha, he, hp⟩
        exact ⟨he, a, ha, hp⟩
      · rintro ⟨he, a, ha, hp⟩
        exact ⟨a, ha, he, hp⟩
    · simp only [get_prefetch_select, if_neg hcond, if_pos hff, List.mem_flatMap,
        List.mem_filter, Bool.or_eq_true]
      constructor
      · rintro ⟨a, ha, he, hp⟩
        exact ⟨he, a, ha, hp⟩
      · rintro ⟨he, a, ha, hp⟩
        exact ⟨a, ha, he, hp⟩
  · intro hff hof e
    have hcond : ¬ (ff = [] ∧ of = []) := fun hc => hof hc.2
    constructor
    · simp [get_prefetch_select, hcond, hff, hof, List.mem_filter, List.any_eq_true,
        Bool.or_eq_true, not_or, Bool.not_eq_true]
    · simp [get_prefetch_select, hcond, hff, hof, List.mem_filter, List.any_eq_true,
        Bool.or_eq_true, not_or, Bool.not_eq_true]

/-- Witness for C5: the filter-list membership characterisation evaluated on
the Book Tier-1 sets with `filter_fields = ["author"]`. -/
theorem get_prefetch_select_spec_witness :
    ("author" ∈ (get_prefetch_select (["author"], ["reviews", "reviews__reviewer"])
        ["author"] []).1 ↔
      "author" ∈ ["author"] ∧ ∃ field ∈ ["author"],
        startswith "author" field = true ∨ startswith field "author" = true) ∧
    ("author" ∈ (get_prefetch_select (["author"], ["reviews", "reviews__reviewer"])
        ["author"] []).2 ↔
      "author" ∈ ["reviews", "reviews__reviewer"] ∧ ∃ field ∈ ["author"],
        startswith "author" field = true ∨ startswith field "author" = true) :=
  (get_prefetch_select_spec ["author"] ["reviews", "reviews__reviewer"]
    ["author"] []).2.1 (by decide) "author"

/-! ## C10: prefix comparison is on raw characters -/

/-- C10: the tier-2 filter compares selector entries and accessor paths as raw
character prefixes: the filter entry `"auth"` is a proper character prefix of
the Tier-1 path `"author"` that does not end at a `LOOKUP_SEP` boundary, and
the entry is nevertheless kept. -/
theorem raw_prefix_filter_keeps :
    get_prefetch_select (["author"], ["reviews", "reviews__reviewer"]) ["auth"] []
      = (["author"], []) ∧
    startswith "author" "auth" = true ∧
    "auth" ≠ "author" ∧
    startswith "author" ("auth" ++ LOOKUP_SEP) = false := by
  decide

end DynamicRead
